import Mathlib

/-!
# NCBI-query: verification of the metadata pipeline of `src/app.py`

A shallow embedding of the three pipeline stages of `src/app.py`
(`search_geo`, `fetch_geo_metadata`, `process_geo_metadata`) and of the
CSV export helper `convert_df_to_csv`, together with theorems settling
the behavioural claims about them.

Modelling conventions:
* JSON values are the inductive `Json`; a Python `dict` is an ordered
  association list with unique keys (`jlookup`, `dictInsert`).
* HTTP traffic is a parameter: the search stage takes the one `HResp`
  it receives, the batch stage takes a function `net` from a chunk of
  identifiers to that chunk's outcome.
* Python exceptions are `Except PyErr`; `requests.Response.raise_for_status`
  raises exactly for status codes in `[400, 600)`.
* Side effects of the batch loop (HTTP requests, `time.sleep`, reported
  errors) are recorded as an event trace (`Ev`).
* Strings are Unicode as in Python; `str.lower`/`str.split()` are modelled
  on their ASCII behaviour, which is all the extraction rules exercise.
-/

namespace NCBIQuery

/-- JSON values, as returned by `response.json()`. Numbers are restricted
to naturals: the remote protocol only carries counts. -/
inductive Json where
  | null : Json
  | num (n : Nat) : Json
  | str (s : String) : Json
  | arr (xs : List Json) : Json
  | obj (kvs : List (String × Json)) : Json

/-- Python exceptions that the modelled code can raise. -/
inductive PyErr where
  | httpError : PyErr
  | jsonError : PyErr
  | attrError : PyErr
  | typeError : PyErr
deriving DecidableEq

/-- Lookup in a JSON object, i.e. Python `dict.__getitem__` restricted to
string keys (first binding wins; JSON objects have unique keys). -/
def jlookup : List (String × Json) → String → Option Json
  | [], _ => none
  | (k, v) :: t, key => if k = key then some v else jlookup t key

/-- Digit-string to number, the core of Python `int(str)`; `none` when the
string is empty or holds a non-digit. -/
def parseNatStr (cs : List Char) : Option Nat :=
  if cs = [] ∨ ¬ cs.all Char.isDigit then none
  else some (cs.foldl (fun n c => n * 10 + (c.toNat - 48)) 0)

/-- Python `int(x)` on a JSON value: numbers pass through, strings are
parsed; anything else raises (`none`). -/
def asInt : Json → Option Nat
  | .num n => some n
  | .str s => parseNatStr s.data
  | _ => none

/-- Coerce a JSON value to a list of strings. The Python code performs no
check here; a non-list or a list with non-string members would blow up in
the dynamically-typed caller, which we model as `none`. -/
def asStrList : Json → Option (List String)
  | .arr xs => xs.mapM (fun j => match j with | .str s => some s | _ => none)
  | _ => none

/-- One HTTP response: its status code and the outcome of `response.json()`
(`none` models a body that is not JSON, so that `.json()` raises). -/
structure HResp where
  status : Nat
  body : Option Json

/-- `requests.Response.raise_for_status`: raises `HTTPError` exactly for
status codes in `[400, 600)`. -/
def raise_for_status (r : HResp) : Except PyErr Unit :=
  if 400 ≤ r.status ∧ r.status < 600 then .error .httpError else .ok ()

/-- `search_geo` of `src/app.py` (lines 9-24), applied to the one response
the search endpoint returns: `raise_for_status`, then `response.json()`,
then `results.get("esearchresult", {}).get("idlist", [])` and
`int(results.get("esearchresult", {}).get("count", 0))`.  A `.get` on a
non-dict raises `AttributeError`. -/
def search_geo (r : HResp) : Except PyErr (List String × Nat) :=
  match raise_for_status r with
  | .error e => .error e
  | .ok () =>
    match r.body with
    | none => .error .jsonError
    | some j =>
      match j with
      | .obj kvs =>
        match (jlookup kvs "esearchresult").getD (.obj []) with
        | .obj ekvs =>
          let idj := (jlookup ekvs "idlist").getD (.arr [])
          let cnt := match jlookup ekvs "count" with
                     | none => some 0
                     | some cj => asInt cj
          match asStrList idj, cnt with
          | some ids, some c => .ok (ids, c)
          | _, _ => .error .typeError
        | _ => .error .attrError
      | _ => .error .attrError

/-- Observable events of the batch-fetch loop: an HTTP request for one
chunk, the `time.sleep(0.5)` delay, and an error report (`st.error`) for a
chunk whose request or parse failed. -/
inductive Ev where
  | req (chunk : List String) : Ev
  | sleep : Ev
  | err (chunk : List String) : Ev
deriving DecidableEq

/-- Python `dict.__setitem__`: overwrite the value of an existing key in
place, otherwise append the new binding at the end. -/
def dictInsert {V : Type} : List (String × V) → String → V → List (String × V)
  | [], k, v => [(k, v)]
  | (k', v') :: t, k, v =>
    if k' = k then (k', v) :: t else (k', v') :: dictInsert t k v

/-- Python `dict.update`: insert every binding of `d`, left to right. -/
def dictUpdate {V : Type} (m d : List (String × V)) : List (String × V) :=
  d.foldl (fun acc kv => dictInsert acc kv.1 kv.2) m

/-- The key sequence of a dict. -/
def keysOf {V : Type} (m : List (String × V)) : List String :=
  m.map Prod.fst

/-- Chunking loop `for i in range(0, len(geo_ids), chunk_size)` with slices
`geo_ids[i:i+chunk_size]`, written with a fuel argument (one unit per chunk;
`l.length` units always suffice when `0 < cs`, which is also what Python
`range` demands — a zero step raises `ValueError`). -/
def chunkGo {α : Type} (cs : Nat) : Nat → List α → List (List α)
  | _, [] => []
  | 0, _ :: _ => []
  | f + 1, a :: l => ((a :: l).take cs) :: chunkGo cs f ((a :: l).drop cs)

/-- The contiguous chunks of `l` of size `cs` (meaningful for `0 < cs`). -/
def chunkList {α : Type} (cs : Nat) (l : List α) : List (List α) :=
  chunkGo cs l.length l

/-- One iteration of the loop body of `fetch_geo_metadata` (lines 31-49):
issue the chunk's request; on success merge the response's `result` object
and sleep; on `HTTPError` or any other exception report the error and
`continue` — which skips the `time.sleep(0.5)` at the end of the body. -/
def fetchStep {V : Type} (net : List String → Except Unit (List (String × V)))
    (acc : List (String × V) × List Ev) (chunk : List String) :
    List (String × V) × List Ev :=
  match net chunk with
  | .ok m => (dictUpdate acc.1 m, acc.2 ++ [Ev.req chunk, Ev.sleep])
  | .error _ => (acc.1, acc.2 ++ [Ev.req chunk, Ev.err chunk])

/-- `fetch_geo_metadata` of `src/app.py` (lines 27-50), parametrised by the
network behaviour `net`: the outcome (merged `result` dict on success) of
the single GET issued for a chunk.  Returns the accumulated dict and the
event trace of the whole loop. -/
def fetch_geo_metadata {V : Type}
    (net : List String → Except Unit (List (String × V)))
    (geo_ids : List String) (chunk_size : Nat) :
    List (String × V) × List Ev :=
  (chunkList chunk_size geo_ids).foldl (fetchStep net) ([], [])

/-- Is an event an HTTP request? -/
def isReqEv : Ev → Bool
  | .req _ => true
  | _ => false

/-- Is an event the rate-limit delay? -/
def isSleepEv : Ev → Bool
  | .sleep => true
  | _ => false

/-- No two adjacent list entries are both requests. -/
def noAdjacentReqs : List Ev → Bool
  | a :: b :: t => (!(isReqEv a && isReqEv b)) && noAdjacentReqs (b :: t)
  | _ => true

/-- The claim "a delay is inserted between consecutive chunk requests":
after dropping all events other than requests and sleeps, no two requests
are adjacent. -/
def delaysBetweenRequests (tr : List Ev) : Bool :=
  noAdjacentReqs (tr.filter (fun e => isReqEv e || isSleepEv e))

/-- The observable block one chunk contributes to the trace: its request,
then a sleep if it succeeded, or an error report (and no sleep) if it
failed. -/
def chunkTrace {V : Type} (net : List String → Except Unit (List (String × V)))
    (ch : List String) : List Ev :=
  Ev.req ch :: (match net ch with
    | .ok _ => [Ev.sleep]
    | .error _ => [Ev.err ch])

/-- Mock network: the chunk `["1"]` fails, every other chunk succeeds and
echoes exactly the requested identifiers. -/
def netFailFirst : List String → Except Unit (List (String × Unit)) :=
  fun ch => if ch = ["1"] then .error () else .ok (ch.map (fun i => (i, ())))

/-- Mock network: the chunk `["a"]` fails, every other chunk succeeds and
echoes exactly the requested identifiers. -/
def netFailA : List String → Except Unit (List (String × Unit)) :=
  fun ch => if ch = ["a"] then .error () else .ok (ch.map (fun i => (i, ())))

/-- Mock network: the chunk `["z"]` fails, every other chunk succeeds and
echoes exactly the requested identifiers. -/
def netFailZ : List String → Except Unit (List (String × Unit)) :=
  fun ch => if ch = ["z"] then .error () else .ok (ch.map (fun i => (i, ())))

/-- Mock network: every chunk fails. -/
def netAllFail : List String → Except Unit (List (String × Unit)) :=
  fun _ => .error ()

/-- Python `str.lower`, on its ASCII behaviour (all keywords the code
compares against are ASCII). -/
def toLowerPy (s : String) : String :=
  ⟨s.data.map Char.toLower⟩

/-- Does `pat` occur as a contiguous run inside `hay`? -/
def isInfixOfCh (pat : List Char) : List Char → Bool
  | [] => List.isPrefixOf pat []
  | h :: hs => List.isPrefixOf pat (h :: hs) || isInfixOfCh pat hs

/-- Python `pat in hay` on strings: substring containment. -/
def containsSub (hay pat : String) : Bool :=
  isInfixOfCh pat.data hay.data

/-- Python `any(term in hay for term in pats)`. -/
def containsAny (hay : String) (pats : List String) : Bool :=
  pats.any (fun p => containsSub hay p)

/-- The inclusion-predicate keyword set of line 72. -/
def inclusionKeywords : List String :=
  ["single-cell", "scrnaseq", "scrna-seq"]

/-- The longitudinal keyword set of line 77. -/
def longitudinalKeywords : List String :=
  ["longitudinal", "time points", "day", "week", "month"]

/-- Accumulator pass behind `pyWords`: gather maximal runs of
non-whitespace characters. -/
def wordsAux : List Char → List Char → List (List Char)
  | [], acc => if acc = [] then [] else [acc.reverse]
  | c :: rest, acc =>
    if c.isWhitespace then
      if acc = [] then wordsAux rest [] else acc.reverse :: wordsAux rest []
    else wordsAux rest (c :: acc)

/-- Python `str.split()` with no separator: split on whitespace runs,
discarding empty pieces. -/
def pyWords (s : String) : List String :=
  (wordsAux s.data []).map (fun w => ⟨w⟩)

/-- `" ".join(s.split())`: collapse all whitespace runs to single spaces
and strip the ends. -/
def normalizeWS (s : String) : String :=
  String.intercalate " " (pyWords s)

/-- One metadata record as the code reads it: each field is optional
because the code calls `value.get(...)` with a default. -/
structure GRecord where
  title : Option String
  summary : Option String
  accession : Option String
  taxon : Option (List String)

/-- One row of the output table, fields in the order the dict literal of
lines 80-86 creates them: "GEO Number", "Title", "Species",
"Longitudinal Study", "Summary". -/
structure DRow where
  geoNumber : String
  title : String
  species : String
  longitudinal : String
  summary : String
deriving DecidableEq

/-- The per-record body of `process_geo_metadata` (lines 59-86): read the
fields with their defaults, compute the species string, drop the record
unless its lowercased summary mentions one of the inclusion keywords, then
derive the longitudinal flag and emit the row. -/
def processRecord (v : GRecord) : Option DRow :=
  if containsAny (toLowerPy (v.summary.getD "N/A")) inclusionKeywords then
    some ⟨v.accession.getD "N/A",
      v.title.getD "N/A",
      (if (v.taxon.getD []).isEmpty then "Unknown"
        else normalizeWS (String.join (v.taxon.getD []))),
      (if containsAny (toLowerPy (v.summary.getD "N/A")) longitudinalKeywords
        then "Yes" else "No"),
      v.summary.getD "N/A"⟩
  else none

/-- `process_geo_metadata` of `src/app.py` (lines 53-87): iterate the
metadata mapping in order, skip the reserved `"uids"` bookkeeping key, and
collect the surviving rows. -/
def process_geo_metadata (geo_metadata : List (String × GRecord)) : List DRow :=
  geo_metadata.filterMap
    (fun kv => if kv.1 = "uids" then none else processRecord kv.2)

/-- Modelled from the spec: the variant carrying the cell-count rule is not
in `src/` (only `src/app.py` is present, without it); per the spec the rule
takes the first match of the regex `(\d[\d,]*) cells?` in the summary.
This is the attempt to match that pattern at one fixed position: a digit,
then the greedy run of digits and commas, then the literal ` cell` (the
trailing `s?` constrains nothing).  Since ` ` and `c` are neither digits
nor commas, no shorter run than the greedy one can succeed, so greedy
matching needs no backtracking for this pattern. -/
def cellMatchAt : List Char → Option (List Char)
  | [] => none
  | c :: rest =>
    if c.isDigit then
      let grp := rest.takeWhile (fun d => d.isDigit || d = ',')
      let tail := rest.dropWhile (fun d => d.isDigit || d = ',')
      if List.isPrefixOf " cell".data tail then some (c :: grp) else none
    else none

/-- Left-to-right scan for the first position where the cell-count pattern
matches (the semantics of `re.search`). -/
def cellScan : List Char → Option (List Char)
  | [] => none
  | c :: rest =>
    match cellMatchAt (c :: rest) with
    | some g => some g
    | none => cellScan rest

/-- The match attempt at position `i` of the text. -/
def matchAtPos (l : List Char) (i : Nat) : Option (List Char) :=
  cellMatchAt (l.drop i)

/-- `group.replace(",", "")`: strip the digit-grouping commas. -/
def stripCommas (g : List Char) : List Char :=
  g.filter (fun c => c ≠ ',')

/-- `str(int(...))` of a comma-stripped digit group. -/
def renderCount (g : List Char) : String :=
  toString ((stripCommas g).foldl (fun n c => n * 10 + (c.toNat - 48)) 0)

/-- Modelled from the spec: the cell-count extraction rule (absent from the
`src/app.py` variant): the first match of `(\d[\d,]*) cells?` with commas
stripped, or the sentinel `"Unknown"` when the summary has no match. -/
def extract_cell_count (summary : String) : String :=
  match cellScan summary.data with
  | some g => renderCount g
  | none => "Unknown"

/-- A record whose summary mentions none of the inclusion keywords. -/
def recNoKw : GRecord :=
  ⟨some "Bulk study", some "bulk RNA-seq of liver", some "GSE100",
    some ["Homo sapiens"]⟩

/-- A record whose summary mentions "Single-Cell" and "day". -/
def recKw : GRecord :=
  ⟨some "SC study",
    some "Single-Cell RNA-seq of 1,200 cells over 3 day period",
    some "GSE200", some ["Homo sapiens"]⟩

/-- A surviving record with no taxon field. -/
def recNoTaxon : GRecord :=
  ⟨none, some "scRNAseq atlas", none, none⟩

/-- The row `processRecord` emits for `recKw`. -/
def rowKw : DRow :=
  ⟨"GSE200", "SC study", "Homo sapiens", "Yes",
    "Single-Cell RNA-seq of 1,200 cells over 3 day period"⟩

/-- The row `processRecord` emits for `recNoTaxon`. -/
def rowNoTaxon : DRow :=
  ⟨"N/A", "N/A", "Unknown", "No", "scRNAseq atlas"⟩

/-- The header row pandas writes for the table: the dict keys of lines
80-86, in insertion order. -/
def csvHeader : List String :=
  ["GEO Number", "Title", "Species", "Longitudinal Study", "Summary"]

/-- The cells of one row, in column order. -/
def rowFields (r : DRow) : List String :=
  [r.geoNumber, r.title, r.species, r.longitudinal, r.summary]

/-- csv QUOTE_MINIMAL: a field is quoted iff it contains the delimiter,
the quote character, or the line terminator. -/
def needsQuote (s : String) : Bool :=
  s.data.any (fun c => c = ',' || c = '"' || c = '\n')

/-- Double every quote character (the csv doublequote escape). -/
def escInner : List Char → List Char
  | [] => []
  | c :: t => if c = '"' then '"' :: '"' :: escInner t else c :: escInner t

/-- Serialize one field: bare when no special character occurs, otherwise
quoted with inner quotes doubled. -/
def escField (s : String) : List Char :=
  if needsQuote s then '"' :: (escInner s.data ++ ['"']) else s.data

/-- The comma-joined serialized fields of one record. -/
def lineBody : List String → List Char
  | [] => []
  | [f] => escField f
  | f :: fs => escField f ++ ',' :: lineBody fs

/-- One CSV line, newline-terminated (pandas terminates every line of
`to_csv` output, including the last). -/
def writeLine (fs : List String) : List Char :=
  lineBody fs ++ ['\n']

/-- `convert_df_to_csv` of `src/app.py` (lines 157-158):
`dataframe.to_csv(index=False)` — a header row built from the column
names, one newline-terminated line per row, no index column.  The final
`.encode('utf-8')` is the injective UTF-8 byte encoding; the model stays
at the string level. -/
def convert_df_to_csv (rows : List DRow) : String :=
  ⟨writeLine csvHeader ++ (rows.map (fun r => writeLine (rowFields r))).flatten⟩

/-- Modes of the CSV reading automaton. -/
inductive CsvMode where
  | fieldStart : CsvMode
  | unquoted : CsvMode
  | quoted : CsvMode
  | quoteEnd : CsvMode
deriving DecidableEq

/-- One-character-at-a-time CSV reader (RFC-4180 dialect matching the
writer: comma delimiter, double-quote quoting, doubled quotes inside
quoted fields, newline row terminator).  Arguments: remaining input, mode,
current field (reversed), current row (reversed), finished rows
(reversed). -/
def csvRun : List Char → CsvMode → List Char → List String → List (List String) →
    List (List String)
  | [], mode, f, row, acc =>
    if mode = .fieldStart ∧ f = [] ∧ row = [] then acc.reverse
    else ((String.mk f.reverse :: row).reverse :: acc).reverse
  | c :: cs, .fieldStart, f, row, acc =>
    if c = '"' then csvRun cs .quoted f row acc
    else if c = ',' then csvRun cs .fieldStart [] (String.mk f.reverse :: row) acc
    else if c = '\n' then
      csvRun cs .fieldStart [] [] ((String.mk f.reverse :: row).reverse :: acc)
    else csvRun cs .unquoted (c :: f) row acc
  | c :: cs, .unquoted, f, row, acc =>
    if c = ',' then csvRun cs .fieldStart [] (String.mk f.reverse :: row) acc
    else if c = '\n' then
      csvRun cs .fieldStart [] [] ((String.mk f.reverse :: row).reverse :: acc)
    else csvRun cs .unquoted (c :: f) row acc
  | c :: cs, .quoted, f, row, acc =>
    if c = '"' then csvRun cs .quoteEnd f row acc
    else csvRun cs .quoted (c :: f) row acc
  | c :: cs, .quoteEnd, f, row, acc =>
    if c = '"' then csvRun cs .quoted ('"' :: f) row acc
    else if c = ',' then csvRun cs .fieldStart [] (String.mk f.reverse :: row) acc
    else if c = '\n' then
      csvRun cs .fieldStart [] [] ((String.mk f.reverse :: row).reverse :: acc)
    else csvRun cs .unquoted (c :: f) row acc

/-- Parse a CSV document into its rows of fields. -/
def csvParse (s : String) : List (List String) :=
  csvRun s.data .fieldStart [] [] []

end NCBIQuery

namespace NCBIQuery

/-- C3, counterexample to the claim as stated: a 304 response (non-2xx) with
a parseable JSON object body is *not* turned into an error — `raise_for_status`
only raises for statuses in `[400, 600)`, so the search stage succeeds with an
empty result. -/
theorem C3_counterexample :
    search_geo ⟨304, some (Json.obj [])⟩ = .ok ([], 0) ∧ (304 < 200 ∨ 300 ≤ 304) := by
  exact ⟨rfl, by decide⟩

/-- C3 (amended): for every response whose status code lies in `[400, 600)`
(4xx or 5xx), the search stage fails with the propagated `HTTPError` raised by
`raise_for_status`; no partial result (no identifier list, no count) is
produced. -/
theorem C3_search_aborts_on_4xx_5xx (st : Nat) (b : Option Json)
    (h4 : 400 ≤ st) (h6 : st < 600) :
    search_geo ⟨st, b⟩ = .error .httpError := by
  simp [search_geo, raise_for_status, h4, h6]

/-- C3 witness: a concrete 404 response aborts the search with `HTTPError`. -/
theorem C3_search_aborts_witness :
    search_geo ⟨404, none⟩ = .error .httpError :=
  C3_search_aborts_on_4xx_5xx 404 none (by decide) (by decide)

/-- C7, counterexample to the claim as stated: a 200 response whose JSON body
is the number `5` lacks the keys `esearchresult.idlist` and
`esearchresult.count`, yet the search stage raises (Python `.get` on a
non-dict is an `AttributeError`) instead of returning `([], 0)`. -/
theorem C7_counterexample :
    search_geo ⟨200, some (Json.num 5)⟩ = .error .attrError ∧
    search_geo ⟨200, some (Json.num 5)⟩ ≠ .ok ([], 0) := by
  refine ⟨rfl, ?_⟩
  intro h
  exact Except.noConfusion h

/-- C7 (amended): for every 2xx response whose JSON body is an *object* in
which `esearchresult` is absent, or maps to an object containing neither
`idlist` nor `count`, the search stage returns an empty identifier list and a
zero total count rather than raising. -/
theorem C7_missing_keys_default (st : Nat) (kvs : List (String × Json))
    (h2 : 200 ≤ st) (h3 : st < 300)
    (hmiss : jlookup kvs "esearchresult" = none ∨
      ∃ ekvs, jlookup kvs "esearchresult" = some (.obj ekvs) ∧
        jlookup ekvs "idlist" = none ∧ jlookup ekvs "count" = none) :
    search_geo ⟨st, some (.obj kvs)⟩ = .ok ([], 0) := by
  have hst : ¬ (400 ≤ st ∧ st < 600) := by omega
  rcases hmiss with h | ⟨ekvs, he, hi, hc⟩
  · simp [search_geo, raise_for_status, hst, h, jlookup, asStrList, List.mapM]
    rfl
  · simp [search_geo, raise_for_status, hst, he, hi, hc, asStrList, List.mapM]
    rfl

/-- C7 witness: a concrete 200 response with an empty JSON object body yields
an empty identifier list and zero count. -/
theorem C7_missing_keys_witness :
    search_geo ⟨200, some (.obj [])⟩ = .ok ([], 0) :=
  C7_missing_keys_default 200 [] (by decide) (by decide) (Or.inl rfl)

end NCBIQuery

namespace NCBIQuery

/-- Chunking consumes its list regardless of surplus fuel: any two
sufficient fuels give the same chunks (for a positive chunk size). -/
theorem chunkGo_fuel_eq {α : Type} (cs : Nat) (hcs : 0 < cs) :
    ∀ (f f' : Nat) (l : List α), l.length ≤ f → l.length ≤ f' →
    chunkGo cs f l = chunkGo cs f' l := by
  intro f
  induction f with
  | zero =>
    intro f' l hf _
    have hl : l = [] := List.eq_nil_of_length_eq_zero (Nat.le_zero.mp hf)
    subst hl
    cases f' <;> rfl
  | succ f ih =>
    intro f' l hf hf'
    cases l with
    | nil => cases f' <;> rfl
    | cons a t =>
      cases f' with
      | zero => simp at hf'
      | succ f'' =>
        simp only [chunkGo]
        congr 1
        simp only [List.length_cons] at hf hf'
        refine ih f'' _ ?_ ?_ <;>
          simp only [List.length_drop, List.length_cons] <;> omega

/-- Unfolding equation of `chunkList` on a nonempty list. -/
theorem chunkList_cons {α : Type} (cs : Nat) (hcs : 0 < cs) (l : List α)
    (hl : l ≠ []) :
    chunkList cs l = l.take cs :: chunkList cs (l.drop cs) := by
  cases l with
  | nil => exact absurd rfl hl
  | cons a t =>
    show chunkGo cs (t.length + 1) (a :: t) = _
    simp only [chunkGo]
    congr 1
    exact chunkGo_fuel_eq cs hcs t.length _ _
      (by simp only [List.length_drop, List.length_cons]; omega) le_rfl

/-- Fuel bound used when peeling one chunk. -/
theorem drop_length_le {α : Type} (cs : Nat) (hcs : 0 < cs) (a : α)
    (t : List α) (f : Nat) (hf : (a :: t).length ≤ f + 1) :
    ((a :: t).drop cs).length ≤ f := by
  simp only [List.length_cons] at hf
  simp only [List.length_drop, List.length_cons]
  omega

/-- The chunks concatenate back to the original list: the partition is
contiguous and order-preserving. -/
theorem chunkGo_flatten {α : Type} (cs : Nat) (hcs : 0 < cs) :
    ∀ (f : Nat) (l : List α), l.length ≤ f → (chunkGo cs f l).flatten = l := by
  intro f
  induction f with
  | zero =>
    intro l hf
    have hl : l = [] := List.eq_nil_of_length_eq_zero (Nat.le_zero.mp hf)
    subst hl; rfl
  | succ f ih =>
    intro l hf
    cases l with
    | nil => rfl
    | cons a t =>
      simp only [chunkGo, List.flatten_cons]
      rw [ih _ (drop_length_le cs hcs a t f hf)]
      exact List.take_append_drop _ _

/-- `chunkList` version of `chunkGo_flatten`. -/
theorem chunkList_flatten {α : Type} (cs : Nat) (hcs : 0 < cs) (l : List α) :
    (chunkList cs l).flatten = l :=
  chunkGo_flatten cs hcs l.length l le_rfl

/-- Every chunk is nonempty and no longer than the chunk size. -/
theorem chunkGo_mem_prop {α : Type} (cs : Nat) (hcs : 0 < cs) :
    ∀ (f : Nat) (l : List α) (ch : List α),
    ch ∈ chunkGo cs f l → ch.length ≤ cs ∧ ch ≠ [] := by
  intro f
  induction f with
  | zero =>
    intro l ch h
    cases l <;> simp [chunkGo] at h
  | succ f ih =>
    intro l ch h
    cases l with
    | nil => simp [chunkGo] at h
    | cons a t =>
      simp only [chunkGo, List.mem_cons] at h
      rcases h with h | h
      · subst h
        refine ⟨List.length_take_le _ _, ?_⟩
        cases cs with
        | zero => exact absurd hcs (lt_irrefl 0)
        | succ c => simp
      · exact ih _ _ h

/-- Inserting a fresh key appends the binding. -/
theorem dictInsert_of_not_mem {V : Type} (m : List (String × V)) (k : String)
    (v : V) (h : k ∉ keysOf m) :
    dictInsert m k v = m ++ [(k, v)] := by
  induction m with
  | nil => rfl
  | cons kv t ih =>
    obtain ⟨k', v'⟩ := kv
    simp only [keysOf, List.map_cons, List.mem_cons, not_or] at h
    have hne : ¬ k' = k := fun e => h.1 e.symm
    simp only [dictInsert, if_neg hne, List.cons_append]
    rw [ih h.2]

/-- Keys of a concatenation. -/
theorem keysOf_append {V : Type} (m d : List (String × V)) :
    keysOf (m ++ d) = keysOf m ++ keysOf d :=
  List.map_append _ _ _

/-- `dict.update` with fresh, duplicate-free keys appends the keys in
order. -/
theorem keysOf_dictUpdate {V : Type} :
    ∀ (d m : List (String × V)), (keysOf d).Nodup →
    (∀ a ∈ keysOf d, a ∉ keysOf m) →
    keysOf (dictUpdate m d) = keysOf m ++ keysOf d := by
  intro d
  induction d with
  | nil =>
    intro m _ _
    simp [dictUpdate, keysOf]
  | cons kv t ih =>
    intro m hnd hdisj
    obtain ⟨k, v⟩ := kv
    have hcons : keysOf ((k, v) :: t) = k :: keysOf t := rfl
    rw [hcons] at hnd hdisj
    have hk : k ∉ keysOf m := hdisj k (List.mem_cons_self _ _)
    have hkt : k ∉ keysOf t := (List.nodup_cons.mp hnd).1
    have htnd : (keysOf t).Nodup := (List.nodup_cons.mp hnd).2
    have hdisj' : ∀ a ∈ keysOf t, a ∉ keysOf (m ++ [(k, v)]) := by
      intro a ha
      rw [keysOf_append]
      simp only [List.mem_append, not_or]
      refine ⟨hdisj a (List.mem_cons_of_mem _ ha), ?_⟩
      show a ∉ [k]
      simp only [List.mem_singleton]
      intro e
      exact hkt (e ▸ ha)
    have step : dictUpdate m ((k, v) :: t) = dictUpdate (dictInsert m k v) t := rfl
    rw [step, dictInsert_of_not_mem m k v hk, ih (m ++ [(k, v)]) htnd hdisj',
      keysOf_append, hcons]
    show (keysOf m ++ [k]) ++ keysOf t = keysOf m ++ (k :: keysOf t)
    simp

/-- Keys accumulated by the batch-fetch loop: exactly the identifiers of
the chunks whose requests succeeded, appended in chunk order (assuming a
successful response echoes exactly its chunk, and all identifiers are
distinct). -/
theorem fetchFold_keys {V : Type}
    (net : List String → Except Unit (List (String × V)))
    (hnet : ∀ ch m, net ch = .ok m → keysOf m = ch) :
    ∀ (chunks : List (List String)) (acc : List (String × V) × List Ev),
    (keysOf acc.1 ++ chunks.flatten).Nodup →
    keysOf (chunks.foldl (fetchStep net) acc).1 =
      keysOf acc.1 ++ ((chunks.filter (fun ch => (net ch).isOk)).flatten) := by
  intro chunks
  induction chunks with
  | nil =>
    intro acc _
    simp
  | cons ch rest ih =>
    intro acc hnd
    simp only [List.foldl_cons]
    cases hnc : net ch with
    | error e =>
      have hstep : fetchStep net acc ch = (acc.1, acc.2 ++ [Ev.req ch, Ev.err ch]) := by
        simp [fetchStep, hnc]
      have hsub : List.Sublist (keysOf acc.1 ++ rest.flatten)
          (keysOf acc.1 ++ (ch :: rest).flatten) := by
        simp only [List.flatten_cons]
        exact (List.sublist_append_right ch rest.flatten).append_left _
      rw [hstep, ih (acc.1, acc.2 ++ [Ev.req ch, Ev.err ch]) (hnd.sublist hsub)]
      have hok : (net ch).isOk = false := by rw [hnc]; rfl
      simp [List.filter_cons, hok]
    | ok m =>
      have hkm : keysOf m = ch := hnet ch m hnc
      have hstep : fetchStep net acc ch =
          (dictUpdate acc.1 m, acc.2 ++ [Ev.req ch, Ev.sleep]) := by
        simp [fetchStep, hnc]
      have hnd' : (keysOf acc.1 ++ (ch ++ rest.flatten)).Nodup := by
        simpa [List.flatten_cons] using hnd
      have hchnd : ch.Nodup := by
        refine hnd'.sublist ?_
        exact (List.sublist_append_left ch rest.flatten).trans
          (List.sublist_append_right _ _)
      have hdisjA : (keysOf acc.1).Disjoint (ch ++ rest.flatten) :=
        ((List.nodup_append).1 hnd').2.2
      have hdisj : ∀ a ∈ ch, a ∉ keysOf acc.1 := by
        intro a ha hmem
        exact hdisjA hmem (List.mem_append.mpr (Or.inl ha))
      have hkeys : keysOf (dictUpdate acc.1 m) = keysOf acc.1 ++ ch := by
        rw [keysOf_dictUpdate m acc.1 (hkm ▸ hchnd) (by rw [hkm]; exact hdisj)]
        rw [hkm]
      have hndrec : (keysOf (dictUpdate acc.1 m) ++ rest.flatten).Nodup := by
        rw [hkeys, List.append_assoc]
        exact hnd'
      rw [hstep, ih (dictUpdate acc.1 m, acc.2 ++ [Ev.req ch, Ev.sleep]) hndrec]
      have hok : (net ch).isOk = true := by rw [hnc]; rfl
      simp [List.filter_cons, hok, hkeys, List.flatten_cons, List.append_assoc]

end NCBIQuery

namespace NCBIQuery

/-- Flattening is monotone with respect to sublists. -/
theorem flatten_sublist {α : Type} {L₁ L₂ : List (List α)}
    (h : List.Sublist L₁ L₂) :
    List.Sublist L₁.flatten L₂.flatten := by
  induction h with
  | slnil => exact List.Sublist.refl _
  | cons a _ ih =>
    simpa [List.flatten_cons] using ih.trans (List.sublist_append_right a _)
  | cons₂ a _ ih =>
    simpa [List.flatten_cons] using ih.append_left a

/-- C1, counterexample to the claim as stated: the claim quantifies over
*every* identifier list, but with the duplicate-containing list
`["a","b","a"]` and chunk size 2 the identifier `"a"` belongs to the failed
second chunk `["a"]` and must be absent, yet it is present in the returned
mapping, delivered by the successful first chunk `["a","b"]`. -/
theorem C1_counterexample :
    ["a"] ∈ chunkList 2 ["a", "b", "a"] ∧
    netFailA ["a"] = .error () ∧
    "a" ∈ keysOf (fetch_geo_metadata netFailA ["a", "b", "a"] 2).1 := by
  refine ⟨by decide, rfl, by decide⟩

/-- C1 (amended): for every list of pairwise-distinct identifiers and chunk
size `C > 0`, and any remote behaviour whose successful chunk responses map
exactly the requested identifiers, the fetch partitions the list into
contiguous order-preserving chunks of size at most `C` (their concatenation
is the list), the returned mapping holds exactly one entry for each
identifier of each successful chunk, and each identifier of each failed
chunk is absent. -/
theorem C1_batch_fetch_merge {V : Type}
    (net : List String → Except Unit (List (String × V)))
    (ids : List String) (cs : Nat) (hcs : 0 < cs) (hnd : ids.Nodup)
    (hnet : ∀ ch m, net ch = .ok m → keysOf m = ch) :
    (chunkList cs ids).flatten = ids ∧
    (∀ ch ∈ chunkList cs ids, ch.length ≤ cs) ∧
    (∀ ch ∈ chunkList cs ids, ∀ gid ∈ ch,
      ((net ch).isOk = true →
        (keysOf (fetch_geo_metadata net ids cs).1).count gid = 1) ∧
      ((net ch).isOk = false →
        gid ∉ keysOf (fetch_geo_metadata net ids cs).1)) := by
  have hflat := chunkList_flatten cs hcs ids
  have hfn : (chunkList cs ids).flatten.Nodup := by rw [hflat]; exact hnd
  have hkeys : keysOf (fetch_geo_metadata net ids cs).1 =
      ((chunkList cs ids).filter (fun ch => (net ch).isOk)).flatten := by
    have h := fetchFold_keys net hnet (chunkList cs ids) ([], [])
      (by simpa [keysOf] using hfn)
    simpa [fetch_geo_metadata, keysOf] using h
  have hFilterSub : List.Sublist
      (((chunkList cs ids).filter (fun ch => (net ch).isOk)).flatten)
      ((chunkList cs ids).flatten) :=
    flatten_sublist (List.filter_sublist _)
  have hFilterNodup :
      (((chunkList cs ids).filter (fun ch => (net ch).isOk)).flatten).Nodup :=
    hfn.sublist hFilterSub
  have hPair : (chunkList cs ids).Pairwise List.Disjoint :=
    ((List.nodup_flatten).1 hfn).2
  refine ⟨hflat, fun ch hch => (chunkGo_mem_prop cs hcs _ _ _ hch).1, ?_⟩
  intro ch hch gid hgid
  constructor
  · intro hok
    have hchf : ch ∈ (chunkList cs ids).filter (fun c => (net c).isOk) :=
      List.mem_filter.mpr ⟨hch, hok⟩
    have hmem : gid ∈
        (((chunkList cs ids).filter (fun c => (net c).isOk)).flatten) :=
      List.mem_flatten.mpr ⟨ch, hchf, hgid⟩
    rw [hkeys]
    exact List.count_eq_one_of_mem hFilterNodup hmem
  · intro hok hmemk
    rw [hkeys] at hmemk
    obtain ⟨ch', hch', hgid'⟩ := List.mem_flatten.mp hmemk
    have hch'mem : ch' ∈ chunkList cs ids := (List.mem_filter.mp hch').1
    have hok' : (net ch').isOk = true := (List.mem_filter.mp hch').2
    have hne : ch ≠ ch' := by
      intro e
      rw [e, hok'] at hok
      exact absurd hok (by decide)
    have hdisj : ch.Disjoint ch' :=
      List.Pairwise.forall (fun _ _ h => h.symm) hPair hch hch'mem hne
    exact hdisj hgid hgid'

/-- C1 witness: concrete run over `["x","y","z"]` with chunk size 2 where
the chunk `["z"]` fails. -/
theorem C1_batch_fetch_witness :
    (chunkList 2 ["x", "y", "z"]).flatten = ["x", "y", "z"] ∧
    (∀ ch ∈ chunkList 2 ["x", "y", "z"], ch.length ≤ 2) ∧
    (∀ ch ∈ chunkList 2 ["x", "y", "z"], ∀ gid ∈ ch,
      ((netFailZ ch).isOk = true →
        (keysOf (fetch_geo_metadata netFailZ ["x", "y", "z"] 2).1).count gid = 1) ∧
      ((netFailZ ch).isOk = false →
        gid ∉ keysOf (fetch_geo_metadata netFailZ ["x", "y", "z"] 2).1)) :=
  C1_batch_fetch_merge netFailZ ["x", "y", "z"] 2 (by decide) (by decide)
    (by
      intro ch m h
      simp only [netFailZ] at h
      split at h
      · exact absurd h (by simp)
      · cases h
        simp only [keysOf, List.map_map]
        exact List.map_id _)

/-- The trace of the batch loop is the concatenation of each chunk's
observable block. -/
theorem fetchFold_trace {V : Type}
    (net : List String → Except Unit (List (String × V))) :
    ∀ (chunks : List (List String)) (acc : List (String × V) × List Ev),
    (chunks.foldl (fetchStep net) acc).2 =
      acc.2 ++ (chunks.map (chunkTrace net)).flatten := by
  intro chunks
  induction chunks with
  | nil => intro acc; simp
  | cons ch rest ih =>
    intro acc
    simp only [List.foldl_cons]
    cases hnc : net ch with
    | ok m =>
      have hstep : fetchStep net acc ch =
          (dictUpdate acc.1 m, acc.2 ++ [Ev.req ch, Ev.sleep]) := by
        simp [fetchStep, hnc]
      rw [hstep, ih]
      simp [chunkTrace, hnc, List.append_assoc]
    | error e =>
      have hstep : fetchStep net acc ch =
          (acc.1, acc.2 ++ [Ev.req ch, Ev.err ch]) := by
        simp [fetchStep, hnc]
      rw [hstep, ih]
      simp [chunkTrace, hnc, List.append_assoc]

/-- C5, counterexample to the claim as stated: with chunks `["1"]` (request
fails) and `["2"]` (request succeeds), the two consecutive chunk requests
have no delay between them — the `continue` in the exception handlers skips
the `time.sleep(0.5)` for the failed chunk. -/
theorem C5_counterexample :
    (fetch_geo_metadata netFailFirst ["1", "2"] 1).2 =
      [Ev.req ["1"], Ev.err ["1"], Ev.req ["2"], Ev.sleep] ∧
    delaysBetweenRequests (fetch_geo_metadata netFailFirst ["1", "2"] 1).2
      = false := by
  exact ⟨by decide, by decide⟩

/-- C5 (amended): for every identifier list and chunk size `C > 0`, each
chunk contributes exactly its request followed by the 0.5 s delay if its
request succeeded, or by an error report and **no** delay if it failed; the
delay after a successful chunk is inserted regardless of what follows
(including after the last chunk), while a failed chunk's delay is skipped. -/
theorem C5_delay_only_after_success {V : Type}
    (net : List String → Except Unit (List (String × V)))
    (ids : List String) (cs : Nat) (hcs : 0 < cs) :
    (fetch_geo_metadata net ids cs).2 =
      ((chunkList cs ids).map (chunkTrace net)).flatten := by
  have h := fetchFold_trace net (chunkList cs ids) ([], [])
  simpa [fetch_geo_metadata] using h

/-- C5 witness: the concrete two-chunk run, first chunk failing. -/
theorem C5_delay_witness :
    (fetch_geo_metadata netFailFirst ["1", "2"] 1).2 =
      ((chunkList 1 ["1", "2"]).map (chunkTrace netFailFirst)).flatten :=
  C5_delay_only_after_success netFailFirst ["1", "2"] 1 (by decide)

/-- C10: for the empty identifier list the batch fetch returns an empty
mapping and an empty event trace — no HTTP request and no delay — because
the chunk loop body never executes. -/
theorem C10_empty_fetch {V : Type}
    (net : List String → Except Unit (List (String × V))) (cs : Nat)
    (hcs : 0 < cs) :
    fetch_geo_metadata net [] cs = ([], []) := rfl

/-- C10 witness: concrete run with the default chunk size 50. -/
theorem C10_empty_fetch_witness :
    fetch_geo_metadata netAllFail [] 50 = ([], []) :=
  C10_empty_fetch netAllFail 50 (by decide)

end NCBIQuery

namespace NCBIQuery

/-- C2: a non-`"uids"` metadata record is dropped from the output table —
silently, the surrounding rows unchanged — exactly when its lowercased
summary contains none of `"single-cell"`, `"scrnaseq"`, `"scrna-seq"`; a
record containing at least one keyword contributes exactly its row, in
position, to the table. -/
theorem C2_inclusion_filter (pre post : List (String × GRecord)) (k : String)
    (v : GRecord) (hk : k ≠ "uids") :
    (containsAny (toLowerPy (v.summary.getD "N/A")) inclusionKeywords = false →
      process_geo_metadata (pre ++ (k, v) :: post) =
        process_geo_metadata pre ++ process_geo_metadata post) ∧
    (containsAny (toLowerPy (v.summary.getD "N/A")) inclusionKeywords = true →
      ∃ row, processRecord v = some row ∧
        process_geo_metadata (pre ++ (k, v) :: post) =
          process_geo_metadata pre ++ row :: process_geo_metadata post) := by
  constructor
  · intro hfalse
    have hnone : processRecord v = none := by
      simp [processRecord, hfalse]
    unfold process_geo_metadata
    rw [List.filterMap_append]
    simp [List.filterMap_cons, hk, hnone]
  · intro htrue
    have hsome : ∃ row, processRecord v = some row := by
      simp [processRecord, htrue]
    obtain ⟨row, hrow⟩ := hsome
    refine ⟨row, hrow, ?_⟩
    unfold process_geo_metadata
    rw [List.filterMap_append]
    simp [List.filterMap_cons, hk, hrow]

/-- C2 witness: the record lacking all keywords vanishes from the table;
the record containing "Single-Cell" survives as its row. -/
theorem C2_inclusion_witness :
    process_geo_metadata [("123", recNoKw)] = [] ∧
    ∃ row, processRecord recKw = some row ∧
      process_geo_metadata [("456", recKw)] = [row] := by
  constructor
  · exact (C2_inclusion_filter [] [] "123" recNoKw (by decide)).1 (by decide)
  · obtain ⟨row, h1, h2⟩ :=
      (C2_inclusion_filter [] [] "456" recKw (by decide)).2 (by decide)
    exact ⟨row, h1, h2⟩

/-- C4: for every record that survives the inclusion predicate, the
Longitudinal Study field is `"Yes"` when the lowercased summary contains
one of `"longitudinal"`, `"time points"`, `"day"`, `"week"`, `"month"`,
and `"No"` otherwise. -/
theorem C4_longitudinal_flag (v : GRecord) (row : DRow)
    (h : processRecord v = some row) :
    (containsAny (toLowerPy (v.summary.getD "N/A")) longitudinalKeywords = true →
      row.longitudinal = "Yes") ∧
    (containsAny (toLowerPy (v.summary.getD "N/A")) longitudinalKeywords = false →
      row.longitudinal = "No") := by
  unfold processRecord at h
  split at h
  · cases h
    constructor
    · intro hl
      simp [hl]
    · intro hl
      simp [hl]
  · exact absurd h (by simp)

/-- C4 witness: `recKw`'s summary contains "day", so its row's flag is
`"Yes"`. -/
theorem C4_longitudinal_witness : rowKw.longitudinal = "Yes" :=
  (C4_longitudinal_flag recKw rowKw (by decide)).1 (by decide)

/-- C6: for every surviving record, a present nonempty taxon sequence
yields as Species the concatenated, whitespace-normalized join of the
sequence, and a missing taxon field yields the sentinel `"Unknown"`. -/
theorem C6_species_field (v : GRecord) (row : DRow)
    (h : processRecord v = some row) :
    (v.taxon = none → row.species = "Unknown") ∧
    (∀ l, v.taxon = some l → l ≠ [] →
      row.species = normalizeWS (String.join l)) := by
  unfold processRecord at h
  split at h
  · cases h
    constructor
    · intro ht
      simp [ht]
    · intro l hl hlne
      have hne : l.isEmpty = false := by
        cases l with
        | nil => exact absurd rfl hlne
        | cons a t => rfl
      simp [hl, hne]
  · exact absurd h (by simp)

/-- C6 witness: a record with no taxon gets `"Unknown"`, a record with
taxon `["Homo sapiens"]` gets the normalized join. -/
theorem C6_species_witness :
    rowNoTaxon.species = "Unknown" ∧
    rowKw.species = normalizeWS (String.join ["Homo sapiens"]) :=
  ⟨(C6_species_field recNoTaxon rowNoTaxon (by decide)).1 rfl,
    (C6_species_field recKw rowKw (by decide)).2 ["Homo sapiens"] rfl (by decide)⟩

end NCBIQuery

namespace NCBIQuery

/-- Shifting the match position past the head character. -/
theorem matchAtPos_succ (c : Char) (l : List Char) (i : Nat) :
    matchAtPos (c :: l) (i + 1) = matchAtPos l i := rfl

/-- The match attempt at position 0 is the head attempt. -/
theorem matchAtPos_zero (l : List Char) :
    matchAtPos l 0 = cellMatchAt l := rfl

/-- Past the end of the text no match attempt succeeds. -/
theorem matchAtPos_oob (l : List Char) (i : Nat) (h : l.length ≤ i) :
    matchAtPos l i = none := by
  unfold matchAtPos
  rw [List.drop_eq_nil_of_le h]
  rfl

/-- If no position matches, the scan fails. -/
theorem cellScan_eq_none (l : List Char)
    (h : ∀ i, matchAtPos l i = none) : cellScan l = none := by
  induction l with
  | nil => rfl
  | cons c rest ih =>
    have h0 : cellMatchAt (c :: rest) = none := by
      have := h 0
      rwa [matchAtPos_zero] at this
    simp only [cellScan, h0]
    exact ih (fun i => by
      have := h (i + 1)
      rwa [matchAtPos_succ] at this)

/-- The scan returns the match of the leftmost matching position. -/
theorem cellScan_eq_some (l : List Char) :
    ∀ (i : Nat) (g : List Char), matchAtPos l i = some g →
    (∀ j, j < i → matchAtPos l j = none) → cellScan l = some g := by
  induction l with
  | nil =>
    intro i g hm _
    rw [matchAtPos, List.drop_nil] at hm
    exact absurd hm (by simp [cellMatchAt])
  | cons c rest ih =>
    intro i g hm hmin
    cases i with
    | zero =>
      rw [matchAtPos_zero] at hm
      simp only [cellScan, hm]
    | succ i' =>
      have h0 : cellMatchAt (c :: rest) = none := by
        have := hmin 0 (Nat.succ_pos _)
        rwa [matchAtPos_zero] at this
      simp only [cellScan, h0]
      rw [matchAtPos_succ] at hm
      exact ih i' g hm (fun j hj => by
        have := hmin (j + 1) (Nat.succ_lt_succ hj)
        rwa [matchAtPos_succ] at this)

/-- C8: when the summary has a leftmost match of `(\d[\d,]*) cells?` at
some position, the extracted cell count is that match's digit group with
the digit-grouping commas stripped, rendered as a number; when no position
matches, the field is the sentinel `"Unknown"`. -/
theorem C8_cell_count (s : String) :
    ((∀ i, matchAtPos s.data i = none) → extract_cell_count s = "Unknown") ∧
    (∀ i g, matchAtPos s.data i = some g →
      (∀ j, j < i → matchAtPos s.data j = none) →
      extract_cell_count s = renderCount g) := by
  constructor
  · intro h
    unfold extract_cell_count
    rw [cellScan_eq_none s.data h]
  · intro i g hm hmin
    unfold extract_cell_count
    rw [cellScan_eq_some s.data i g hm hmin]

/-- C8 witness: `"... 1,200 cells ..."` yields `"1200"` (commas stripped),
and a summary with no match yields `"Unknown"`. -/
theorem C8_cell_count_witness :
    extract_cell_count "a total of 1,200 cells were profiled" = "1200" ∧
    extract_cell_count "bulk tissue" = "Unknown" := by
  constructor
  · have h := (C8_cell_count "a total of 1,200 cells were profiled").2
      11 ("1,200".data) (by decide) (by decide)
    exact h.trans (by decide)
  · refine (C8_cell_count "bulk tissue").1 (fun i => ?_)
    by_cases hlt : i < 11
    · interval_cases i <;> decide
    · refine matchAtPos_oob _ _ ?_
      have hlen : ("bulk tissue".data).length = 11 := rfl
      omega

end NCBIQuery

namespace NCBIQuery

/-- Reading an unquoted field body just accumulates its characters. -/
theorem csvRun_unquoted (g : List Char)
    (hg : ∀ c ∈ g, ¬(c = ',' ∨ c = '"' ∨ c = '\n')) :
    ∀ (cs f : List Char) (row : List String) (acc : List (List String)),
    csvRun (g ++ cs) .unquoted f row acc =
      csvRun cs .unquoted (g.reverse ++ f) row acc := by
  induction g with
  | nil =>
    intro cs f row acc
    simp
  | cons c t ih =>
    intro cs f row acc
    have hc := hg c (List.mem_cons_self _ _)
    push_neg at hc
    obtain ⟨hc1, _, hc3⟩ := hc
    show csvRun (c :: (t ++ cs)) .unquoted f row acc = _
    simp only [csvRun, if_neg hc1, if_neg hc3]
    rw [ih (fun d hd => hg d (List.mem_cons_of_mem _ hd)) cs (c :: f) row acc]
    simp [List.reverse_cons, List.append_assoc]

/-- Reading a quote-escaped field body accumulates the unescaped
characters and ends on the closing quote. -/
theorem csvRun_quoted (g : List Char) :
    ∀ (cs f : List Char) (row : List String) (acc : List (List String)),
    csvRun (escInner g ++ '"' :: cs) .quoted f row acc =
      csvRun cs .quoteEnd (g.reverse ++ f) row acc := by
  induction g with
  | nil =>
    intro cs f row acc
    show csvRun ('"' :: cs) .quoted f row acc = _
    show csvRun cs .quoteEnd f row acc = _
    simp
  | cons c t ih =>
    intro cs f row acc
    by_cases hc : c = '"'
    · subst hc
      show csvRun (escInner ('"' :: t) ++ '"' :: cs) .quoted f row acc = _
      have he : escInner ('"' :: t) = '"' :: '"' :: escInner t := by
        simp [escInner]
      rw [he]
      show csvRun ('"' :: '"' :: (escInner t ++ '"' :: cs)) .quoted f row acc = _
      show csvRun ('"' :: (escInner t ++ '"' :: cs)) .quoteEnd f row acc = _
      show csvRun (escInner t ++ '"' :: cs) .quoted ('"' :: f) row acc = _
      rw [ih cs ('"' :: f) row acc]
      simp [List.reverse_cons, List.append_assoc]
    · have he : escInner (c :: t) = c :: escInner t := by
        simp [escInner, hc]
      rw [he]
      show csvRun (c :: (escInner t ++ '"' :: cs)) .quoted f row acc = _
      simp only [csvRun, if_neg hc]
      rw [ih cs (c :: f) row acc]
      simp [List.reverse_cons, List.append_assoc]

/-- A field with no special characters satisfies the body hypothesis of
`csvRun_unquoted`. -/
theorem no_special_of_not_needsQuote (s : String) (hq : needsQuote s = false) :
    ∀ c ∈ s.data, ¬(c = ',' ∨ c = '"' ∨ c = '\n') := by
  intro c hc h
  unfold needsQuote at hq
  rw [List.any_eq_false] at hq
  apply hq c hc
  rcases h with h | h | h <;> simp [h]

/-- Machine step: an opening quote at the start of a field. -/
theorem step_fs_quote (cs f row acc) :
    csvRun ('"' :: cs) .fieldStart f row acc = csvRun cs .quoted f row acc := rfl

/-- Machine step: a comma at the start of a field pushes an empty field. -/
theorem step_fs_comma (cs f row acc) :
    csvRun (',' :: cs) .fieldStart f row acc =
      csvRun cs .fieldStart [] (String.mk f.reverse :: row) acc := rfl

/-- Machine step: a newline at the start of a field closes the row. -/
theorem step_fs_nl (cs f row acc) :
    csvRun ('\n' :: cs) .fieldStart f row acc =
      csvRun cs .fieldStart [] [] ((String.mk f.reverse :: row).reverse :: acc)
      := rfl

/-- Machine step: an ordinary character starts an unquoted field. -/
theorem step_fs_other (c : Char) (h2 : ¬ c = '"') (h1 : ¬ c = ',')
    (h3 : ¬ c = '\n') (cs f row acc) :
    csvRun (c :: cs) .fieldStart f row acc =
      csvRun cs .unquoted (c :: f) row acc := by
  simp [csvRun, h1, h2, h3]

/-- Machine step: a comma ends an unquoted field. -/
theorem step_unq_comma (cs f row acc) :
    csvRun (',' :: cs) .unquoted f row acc =
      csvRun cs .fieldStart [] (String.mk f.reverse :: row) acc := rfl

/-- Machine step: a newline ends an unquoted field and its row. -/
theorem step_unq_nl (cs f row acc) :
    csvRun ('\n' :: cs) .unquoted f row acc =
      csvRun cs .fieldStart [] [] ((String.mk f.reverse :: row).reverse :: acc)
      := rfl

/-- Machine step: a comma after a closing quote ends the field. -/
theorem step_qe_comma (cs f row acc) :
    csvRun (',' :: cs) .quoteEnd f row acc =
      csvRun cs .fieldStart [] (String.mk f.reverse :: row) acc := rfl

/-- Machine step: a newline after a closing quote ends the field and its
row. -/
theorem step_qe_nl (cs f row acc) :
    csvRun ('\n' :: cs) .quoteEnd f row acc =
      csvRun cs .fieldStart [] [] ((String.mk f.reverse :: row).reverse :: acc)
      := rfl

/-- Reading one serialized field followed by a comma pushes exactly that
field and returns to the start-of-field state. -/
theorem csvRun_field_comma (s : String) :
    ∀ (cs : List Char) (row : List String) (acc : List (List String)),
    csvRun (escField s ++ ',' :: cs) .fieldStart [] row acc =
      csvRun cs .fieldStart [] (s :: row) acc := by
  obtain ⟨d⟩ := s
  intro cs row acc
  by_cases hq : needsQuote ⟨d⟩
  · rw [show escField ⟨d⟩ = '"' :: (escInner d ++ ['"']) from by
      simp [escField, hq]]
    rw [List.cons_append, step_fs_quote, List.append_assoc,
      List.singleton_append, csvRun_quoted d (',' :: cs) [] row acc,
      step_qe_comma]
    simp
  · have hq' : needsQuote ⟨d⟩ = false := by
      cases h : needsQuote ⟨d⟩
      · rfl
      · exact absurd h hq
    have hg := no_special_of_not_needsQuote ⟨d⟩ hq'
    rw [show escField ⟨d⟩ = d from by simp [escField, hq]]
    cases d with
    | nil =>
      rw [List.nil_append, step_fs_comma]
      rfl
    | cons c t =>
      have hc := hg c (List.mem_cons_self _ _)
      push_neg at hc
      obtain ⟨hc1, hc2, hc3⟩ := hc
      rw [List.cons_append, step_fs_other c hc2 hc1 hc3,
        csvRun_unquoted t (fun e he => hg e (List.mem_cons_of_mem _ he))
          (',' :: cs) [c] row acc,
        step_unq_comma]
      simp

/-- Reading one serialized field followed by a newline pushes that field,
closes the row, and returns to the start-of-field state. -/
theorem csvRun_field_nl (s : String) :
    ∀ (cs : List Char) (row : List String) (acc : List (List String)),
    csvRun (escField s ++ '\n' :: cs) .fieldStart [] row acc =
      csvRun cs .fieldStart [] [] ((s :: row).reverse :: acc) := by
  obtain ⟨d⟩ := s
  intro cs row acc
  by_cases hq : needsQuote ⟨d⟩
  · rw [show escField ⟨d⟩ = '"' :: (escInner d ++ ['"']) from by
      simp [escField, hq]]
    rw [List.cons_append, step_fs_quote, List.append_assoc,
      List.singleton_append, csvRun_quoted d ('\n' :: cs) [] row acc,
      step_qe_nl]
    simp
  · have hq' : needsQuote ⟨d⟩ = false := by
      cases h : needsQuote ⟨d⟩
      · rfl
      · exact absurd h hq
    have hg := no_special_of_not_needsQuote ⟨d⟩ hq'
    rw [show escField ⟨d⟩ = d from by simp [escField, hq]]
    cases d with
    | nil =>
      rw [List.nil_append, step_fs_nl]
      rfl
    | cons c t =>
      have hc := hg c (List.mem_cons_self _ _)
      push_neg at hc
      obtain ⟨hc1, hc2, hc3⟩ := hc
      rw [List.cons_append, step_fs_other c hc2 hc1 hc3,
        csvRun_unquoted t (fun e he => hg e (List.mem_cons_of_mem _ he))
          ('\n' :: cs) [c] row acc,
        step_unq_nl]
      simp

end NCBIQuery

namespace NCBIQuery

/-- Reading one serialized line appends its fields as one finished row. -/
theorem csvRun_line (fs : List String) (hfs : fs ≠ []) :
    ∀ (cs : List Char) (row : List String) (acc : List (List String)),
    csvRun ((lineBody fs ++ ['\n']) ++ cs) .fieldStart [] row acc =
      csvRun cs .fieldStart [] [] ((row.reverse ++ fs) :: acc) := by
  induction fs with
  | nil => exact absurd rfl hfs
  | cons f fs ih =>
    intro cs row acc
    cases fs with
    | nil =>
      have hb : lineBody [f] = escField f := rfl
      rw [hb, List.append_assoc, List.singleton_append, csvRun_field_nl]
      simp
    | cons f' fs' =>
      have hb : lineBody (f :: f' :: fs') = escField f ++ ',' :: lineBody (f' :: fs') := rfl
      rw [hb]
      have : ((escField f ++ ',' :: lineBody (f' :: fs')) ++ ['\n']) ++ cs =
          escField f ++ ',' :: ((lineBody (f' :: fs') ++ ['\n']) ++ cs) := by
        simp [List.append_assoc]
      rw [this, csvRun_field_comma, ih (by simp) cs (f :: row) acc]
      simp [List.reverse_cons, List.append_assoc]

/-- Reading a concatenation of serialized lines appends all the rows. -/
theorem csvRun_lines (rows : List (List String))
    (hrows : ∀ r ∈ rows, r ≠ []) :
    ∀ acc : List (List String),
    csvRun ((rows.map writeLine).flatten) .fieldStart [] [] acc =
      acc.reverse ++ rows := by
  induction rows with
  | nil =>
    intro acc
    show (if CsvMode.fieldStart = CsvMode.fieldStart ∧ ([] : List Char) = [] ∧
        ([] : List String) = [] then acc.reverse else _) = acc.reverse ++ []
    simp
  | cons r rest ih =>
    intro acc
    have hw : writeLine r = lineBody r ++ ['\n'] := rfl
    simp only [List.map_cons, List.flatten_cons]
    rw [hw, csvRun_line r (hrows r (List.mem_cons_self _ _)) _ [] acc]
    simp only [List.reverse_nil, List.nil_append]
    rw [ih (fun x hx => hrows x (List.mem_cons_of_mem _ hx)) ((r :: acc))]
    simp

/-- C9: serializing any table with `convert_df_to_csv` and re-parsing the
CSV text reproduces the header row (the field names, in order) followed by
exactly the table's rows with identical field values — the round trip is
the identity. -/
theorem C9_csv_round_trip (rows : List DRow) :
    csvParse (convert_df_to_csv rows) = csvHeader :: rows.map rowFields := by
  unfold csvParse convert_df_to_csv
  show csvRun (writeLine csvHeader ++
    (rows.map (fun r => writeLine (rowFields r))).flatten)
    .fieldStart [] [] [] = _
  have hmap : writeLine csvHeader ++
      (rows.map (fun r => writeLine (rowFields r))).flatten =
      (((csvHeader :: rows.map rowFields)).map writeLine).flatten := by
    simp only [List.map_cons, List.flatten_cons, List.map_map]
    rfl
  rw [hmap, csvRun_lines (csvHeader :: rows.map rowFields) ?nonempty []]
  · simp
  case nonempty =>
    intro r hr
    rcases List.mem_cons.mp hr with h | h
    · subst h
      simp [csvHeader]
    · obtain ⟨x, _, hx⟩ := List.mem_map.mp h
      subst hx
      simp [rowFields]

end NCBIQuery
